import Mathlib

/-!
Verification development for the Laravel one-click demo launcher
(`src/launcher/main.go`).  The launcher's effectful operations are shallowly
embedded: the disk is an association list from paths to nodes, every external
oracle (temp-dir creation, JSON parsing, the network stack, process spawning,
signals) is a field of a `World` record, and `runMain` replays `main()` over a
world, producing an exit outcome and an event trace.  Go's `defer`/`os.Exit`
semantics are modelled faithfully: deferred cleanup runs on `return`, and
`os.Exit` terminates without running deferred functions.
-/

/-- Paths are modelled as lists of components; `filepath.Join` is list append
and `filepath.Dir` is `dropLast` (the manifest's relative paths are clean,
without `.` or `..`, so this matches Go's semantics on Linux). -/
abbrev FPath := List String

/-- One node of the on-disk filesystem: a directory, or a file with its
content and permission mode. -/
inductive FNode where
  | dir
  | file (content : String) (mode : Nat)
  deriving DecidableEq, Repr

/-- The disk, as an association list from absolute paths to nodes. -/
abbrev FS := List (FPath × FNode)

def fsGet : FS → FPath → Option FNode
  | [], _ => none
  | (q, n) :: rest, p => if p = q then some n else fsGet rest p

def fsSet : FS → FPath → FNode → FS
  | [], p, n => [(p, n)]
  | (q, m) :: rest, p, n => if p = q then (p, n) :: rest else (q, m) :: fsSet rest p n

/-- All nonempty prefixes of a path, shortest first (the chain of directories
`os.MkdirAll` ensures). -/
def ancestors : FPath → List FPath
  | [] => []
  | a :: rest => [a] :: (ancestors rest).map (a :: ·)

/-- Create every listed directory that does not already exist (existing
entries are left untouched, as `os.MkdirAll` does for existing directories). -/
def mkdirList : List FPath → FS → FS
  | [], fs => fs
  | q :: qs, fs => mkdirList qs (if fsGet fs q = none then fsSet fs q .dir else fs)

/-- Model of `os.MkdirAll`: create the directory and all missing parents. -/
def mkdirAll (p : FPath) (fs : FS) : FS := mkdirList (ancestors p) fs

/-- One entry of the embedded `bundle` asset tree (`bundleFS`), with its path
relative to the `bundle` root.  The walk root itself (`relPath = "."`, skipped
by `extractBundle`) is not listed.  `content` is empty for directories. -/
structure BEntry where
  relPath : FPath
  isDir : Bool
  content : String
  deriving DecidableEq, Repr

/-- Disk operations performed by `extractBundle`, in order. -/
inductive DiskOp where
  | mkdirAllOp (p : FPath)
  | writeFileOp (p : FPath) (content : String) (mode : Nat)
  deriving DecidableEq, Repr

/-- Model of `filepath.Join(targetDir, "bundle", rel)`. -/
def inBundle (td : FPath) (p : FPath) : FPath := td ++ "bundle" :: p

/-- Destination path of a bundle entry under the workspace. -/
def destOf (td : FPath) (e : BEntry) : FPath := inBundle td e.relPath

/-- Body of the `fs.WalkDir` loop in `extractBundle`: for a directory entry,
`os.MkdirAll(destPath)`; for a file entry, `os.MkdirAll(filepath.Dir(destPath))`
then `ioutil.WriteFile(destPath, data, 0755)`.  The write oracle `we` models
disk write failures; a failure aborts the walk (`WalkDir` stops on error).
Returns the final disk state together with the ordered list of disk
operations. -/
def extractGo (td : FPath) (we : FPath → Option String) :
    List BEntry → FS → Except String (FS × List DiskOp)
  | [], fs => .ok (fs, [])
  | e :: rest, fs =>
    if e.isDir then
      match extractGo td we rest (mkdirAll (destOf td e) fs) with
      | .error m => .error m
      | .ok (fs', ops) => .ok (fs', .mkdirAllOp (destOf td e) :: ops)
    else
      match we (destOf td e) with
      | some m => .error m
      | none =>
        match extractGo td we rest
            (fsSet (mkdirAll (destOf td e).dropLast fs) (destOf td e)
              (.file e.content 0o755)) with
        | .error m => .error m
        | .ok (fs', ops) =>
          .ok (fs', .mkdirAllOp (destOf td e).dropLast ::
                .writeFileOp (destOf td e) e.content 0o755 :: ops)

/-- Model of `extractBundle(targetDir)`: ensure the root `bundle` directory
exists, then walk the embedded tree. -/
def extractBundle (td : FPath) (entries : List BEntry) (we : FPath → Option String) :
    Except String (FS × List DiskOp) :=
  match extractGo td we entries (mkdirAll (inBundle td []) []) with
  | .error m => .error m
  | .ok (fs, ops) => .ok (fs, .mkdirAllOp (inBundle td []) :: ops)

/-- Well-formedness of an embedded asset tree, as guaranteed by any real
`fs.FS` walk: entry paths are pairwise distinct, nonempty, and no file's path
is a prefix of another entry's path. -/
@[reducible] def treeWF (entries : List BEntry) : Prop :=
  entries.Pairwise (fun e f => e.relPath ≠ f.relPath) ∧
  (∀ e ∈ entries, e.relPath ≠ []) ∧
  (∀ e ∈ entries, ∀ f ∈ entries, e.isDir = false → e.relPath <+: f.relPath → e = f)

/-- Invariant threaded through extraction: every file on disk is the image of
a file entry of the tree, at its destination path, with mode `0755`. -/
def onlyBundleFiles (entries : List BEntry) (td : FPath) (fs : FS) : Prop :=
  ∀ p c m, fsGet fs p = some (.file c m) →
    ∃ e, e ∈ entries ∧ e.isDir = false ∧ p = destOf td e ∧ c = e.content ∧ m = 0o755

/-- Model of `ioutil.ReadFile` against the modelled disk. -/
def readFile (fs : FS) (p : FPath) : Option String :=
  match fsGet fs p with
  | some (.file c _) => some c
  | _ => none

/-- Configuration record matching the `Manifest` struct of `main.go`.  FPath
fields (`php_binary_path`, `public_root`) are modelled as component lists. -/
structure Manifest where
  appName : String
  appVersion : String
  windowWidth : Int
  windowHeight : Int
  startMaximized : Bool
  phpPort : Int
  dbType : String
  dbPath : String
  envVars : List (String × String)
  demoModeEnvKey : String
  splashScreenImage : String
  iconPath : String
  landingPageURL : String
  phpBinaryPath : FPath
  publicRoot : FPath
  scrambleCode : Bool
  scramblePluginPath : String
  cleanOnExit : Bool
  uninstallShortcut : Bool
  allowedDemoDurationMinutes : Int
  deriving DecidableEq, Repr

/-- Child environment built by `main`: `os.Environ()`, then the demo-mode key
bound to `"true"`, then every entry of `env_vars` (appended last). -/
def buildEnv (hostEnv : List (String × String)) (cfg : Manifest) :
    List (String × String) :=
  hostEnv ++ [(cfg.demoModeEnvKey, "true")] ++ cfg.envVars

/-- Value a key resolves to in an environment list where later entries win:
`os/exec` deduplicates `cmd.Env` in favor of later values before spawning. -/
def lastVal : List (String × String) → String → Option String
  | [], _ => none
  | kv :: rest, k =>
    match lastVal rest k with
    | some v => some v
    | none => if kv.1 = k then some kv.2 else none

/-- Oracle for the networking stack used by `getFreePort`: resolving
`localhost:0` may fail, listening may fail, or the OS assigns a port. -/
inductive NetResult where
  | resolveErr (msg : String)
  | listenErr (msg : String)
  | ok (port : Int)
  deriving DecidableEq, Repr

/-- Rendering of a component path as a string (Linux separator), used where
the Go code passes a path as a command-line argument. -/
def pathStr (p : FPath) : String := p.foldl (fun acc s => acc ++ "/" ++ s) ""

/-- The shutdown triggers racing on the signal channel. -/
inductive Trigger where
  | osSignal
  | timeout
  deriving DecidableEq, Repr

/-- Specification of a spawned child process (`exec.Cmd`): binary, argument
list, working directory and environment. -/
structure CmdSpec where
  bin : FPath
  args : List String
  dir : FPath
  env : List (String × String)
  deriving DecidableEq, Repr

/-- Observable events of a launcher run, in program order.  `logRemoveError`
is in the vocabulary but is never emitted: `main` discards the error returned
by `os.RemoveAll(tempDir)` in the deferred cleanup. -/
inductive Ev where
  | tempDirCreated
  | extractStart
  | extractDone
  | extractFailed
  | manifestReadErr
  | manifestParseErr
  | configLoaded
  | uninstallMsg
  | netResolve (addr : String)
  | netListen (host : String) (port : Int)
  | netClose
  | logPortErr
  | procStarted (cmd : CmdSpec)
  | logStartErr
  | scheduleTimer
  | triggered (t : Trigger)
  | logShuttingDown
  | killProc
  | logKillError
  | cleanupMsg
  | removeWorkspace
  | logRemoveError
  deriving DecidableEq, Repr

/-- Model of `getFreePort`: resolve `localhost:0`, bind a TCP listener there,
read back the OS-assigned port, and close the listener (the deferred
`l.Close()` runs before the function returns).  Returns the result together
with the network events performed. -/
def getFreePort (net : NetResult) : Except String Int × List Ev :=
  match net with
  | .resolveErr m => (.error m, [.netResolve "localhost:0"])
  | .listenErr m => (.error m, [.netResolve "localhost:0", .netListen "localhost" 0])
  | .ok p => (.ok p, [.netResolve "localhost:0", .netListen "localhost" 0, .netClose])

/-- Port-selection logic of `main` (step 3): use the configured port, or ask
`getFreePort` when it is `0`. -/
def findPort (phpPort : Int) (net : NetResult) : Except String Int × List Ev :=
  if phpPort = 0 then getFreePort net else (.ok phpPort, [])

/-- Binary resolution of `main` (step 4): the configured binary path inside
the extracted bundle if `os.Stat` finds it, otherwise the literal name `php`,
left to the system's executable search path. -/
def resolvePhpBin (fs : FS) (td : FPath) (cfgBin : FPath) : FPath :=
  match fsGet fs (inBundle td cfgBin) with
  | none => ["php"]
  | some _ => inBundle td cfgBin

/-- Modelled from the spec: the claim's reading of binary resolution, under
which the fallback is "the same binary name resolved via the host's standard
executable search path", i.e. the base name of the configured path. -/
def resolvePhpBinClaim (fs : FS) (td : FPath) (cfgBin : FPath) : FPath :=
  match fsGet fs (inBundle td cfgBin) with
  | none => [cfgBin.getLastD "php"]
  | some _ => inBundle td cfgBin

/-- Window-size flag passed to app-mode browsers. -/
def winSizeFlag (cfg : Manifest) : String :=
  "--window-size=" ++ toString cfg.windowWidth ++ "," ++ toString cfg.windowHeight

/-- Chrome app-mode invocation on Windows. -/
def chromeWinCmd (cfg : Manifest) (url : String) : List String :=
  ["cmd", "/c", "start", "chrome", winSizeFlag cfg, "--app=" ++ url]

/-- Edge app-mode invocation on Windows. -/
def edgeWinCmd (cfg : Manifest) (url : String) : List String :=
  ["cmd", "/c", "start", "msedge", winSizeFlag cfg, "--app=" ++ url]

/-- Chrome app-mode invocation on Linux. -/
def chromeLinuxCmd (cfg : Manifest) (url : String) : List String :=
  ["google-chrome", winSizeFlag cfg, "--app=" ++ url]

/-- Errors the browser opener can log (it never escalates them). -/
inductive BrowserErr where
  | spawnFailed
  | unsupportedPlatform
  deriving DecidableEq, Repr

/-- Final fallback of `openBrowser`: the platform's default URL opener, or an
unsupported-platform error.  `tried` accumulates the commands already
spawned.  Returns all attempted commands and the logged error, if any. -/
def fallbackOpen (goos : String) (url : String) (ok : List String → Bool)
    (tried : List (List String)) : List (List String) × Option BrowserErr :=
  if goos = "linux" then
    let c := ["xdg-open", url]
    (tried ++ [c], if ok c then none else some .spawnFailed)
  else if goos = "windows" then
    let c := ["rundll32", "url.dll,FileProtocolHandler", url]
    (tried ++ [c], if ok c then none else some .spawnFailed)
  else if goos = "darwin" then
    let c := ["open", url]
    (tried ++ [c], if ok c then none else some .spawnFailed)
  else (tried, some .unsupportedPlatform)

/-- Model of `openBrowser(url, config)`: when a window geometry is configured,
try the platform's app-mode browsers in order, returning at the first
successful spawn; otherwise fall through to the default opener.  `ok` is the
spawn oracle (`cmd.Start()` success).  Returns the attempted commands and the
logged error, if any; the function always returns — errors are printed, never
escalated. -/
def openBrowser (goos : String) (cfg : Manifest) (url : String)
    (ok : List String → Bool) : List (List String) × Option BrowserErr :=
  if 0 < cfg.windowWidth ∧ 0 < cfg.windowHeight then
    if goos = "windows" then
      let c1 := chromeWinCmd cfg url
      if ok c1 then ([c1], none)
      else
        let c2 := edgeWinCmd cfg url
        if ok c2 then ([c1, c2], none)
        else fallbackOpen goos url ok [c1, c2]
    else if goos = "linux" then
      let c1 := chromeLinuxCmd cfg url
      if ok c1 then ([c1], none) else fallbackOpen goos url ok [c1]
    else fallbackOpen goos url ok []
  else fallbackOpen goos url ok []

/-- Modelled from the spec: the app-mode candidate list for a platform —
nonempty only when a window geometry is configured. -/
def appModeCandidates (goos : String) (cfg : Manifest) (url : String) :
    List (List String) :=
  if 0 < cfg.windowWidth ∧ 0 < cfg.windowHeight then
    if goos = "windows" then [chromeWinCmd cfg url, edgeWinCmd cfg url]
    else if goos = "linux" then [chromeLinuxCmd cfg url]
    else []
  else []

/-- Modelled from the spec: the platform's default "open URL" mechanism. -/
def defaultOpener (goos : String) (url : String) : Option (List String) :=
  if goos = "linux" then some ["xdg-open", url]
  else if goos = "windows" then some ["rundll32", "url.dll,FileProtocolHandler", url]
  else if goos = "darwin" then some ["open", url]
  else none

/-- Modelled from the spec: try candidates in order, stopping at the first
successful spawn; returns the attempted commands and whether one succeeded. -/
def tryCands (ok : List String → Bool) : List (List String) → List (List String) × Bool
  | [] => ([], false)
  | c :: cs =>
    if ok c then ([c], true)
    else
      let (t, s) := tryCands ok cs
      (c :: t, s)

/-- Modelled from the spec: ordered fallback chain — app-mode candidates until
the first success, then the default opener, else an unsupported-platform
error. -/
def openBrowserChain (goos : String) (cfg : Manifest) (url : String)
    (ok : List String → Bool) : List (List String) × Option BrowserErr :=
  let (tried, succ) := tryCands ok (appModeCandidates goos cfg url)
  if succ then (tried, none)
  else
    match defaultOpener goos url with
    | some c => (tried ++ [c], if ok c then none else some .spawnFailed)
    | none => (tried, some .unsupportedPlatform)

/-- First shutdown trigger to reach the signal channel: the duration timer is
armed only when `allowed_demo_duration_minutes > 0` and fires after that many
minutes; an OS signal arrives at `sigAt` minutes, if ever.  Whichever is
earlier wins; a tie is resolved in favor of the OS signal (the race is
nondeterministic in Go — the convention is irrelevant to the claims). -/
def firstTrigger (sigAt : Option Nat) (cfg : Manifest) : Option Trigger :=
  if 0 < cfg.allowedDemoDurationMinutes then
    match sigAt with
    | none => some .timeout
    | some t => if (t : Int) ≤ cfg.allowedDemoDurationMinutes then some .osSignal
                else some .timeout
  else
    match sigAt with
    | none => none
    | some _ => some .osSignal

/-- Final status of a run: exited with a code, or blocked forever on the
signal channel (no trigger ever fires). -/
inductive Outcome where
  | exited (code : Nat)
  | blocked
  deriving DecidableEq, Repr

/-- All external inputs of one launcher run. -/
structure World where
  mkdirTempRes : Except String FPath
  entries : List BEntry
  writeErr : FPath → Option String
  parse : String → Option Manifest
  net : NetResult
  startErr : Option String
  hostEnv : List (String × String)
  uninstallFlag : Bool
  sigAt : Option Nat
  killErr : Option String
  removeErr : Option String
  spawnOk : List String → Bool
  goos : String

/-- Result of a run: the exit outcome, the main-flow event trace, and the
commands attempted (with the logged error) by the asynchronous browser-open
task, which runs concurrently with the main wait. -/
structure RunResult where
  outcome : Outcome
  trace : List Ev
  browser : List (List String) × Option BrowserErr
  deriving DecidableEq, Repr

/-- Shallow embedding of `main()` over a `World`.  Mirrors the source line by
line: create the temp dir (exit 1 on failure, nothing created); register the
deferred cleanup (`fmt.Println("Cleaning up..."); os.RemoveAll(tempDir)` — its
error is discarded); extract the bundle; read and parse the manifest from the
extracted path; handle `-uninstall` (plain `return`, so deferred cleanup
runs); pick the port; resolve the binary and build the command; start it;
schedule the browser-open goroutine and, when the configured duration is
positive, the expiry timer; block on the signal channel; kill the child
(logging a failure); return, which runs the deferred cleanup.  Every
`os.Exit(1)` path produces `exited 1` without the cleanup events, because
`os.Exit` does not run deferred functions. -/
def runMain (w : World) : RunResult :=
  match w.mkdirTempRes with
  | .error _ => ⟨.exited 1, [], ([], none)⟩
  | .ok tempDir =>
    match extractBundle tempDir w.entries w.writeErr with
    | .error _ =>
      ⟨.exited 1, [.tempDirCreated, .extractStart, .extractFailed], ([], none)⟩
    | .ok (fs, _) =>
      let tr1 : List Ev := [.tempDirCreated, .extractStart, .extractDone]
      match readFile fs (inBundle tempDir ["manifest.json"]) with
      | none => ⟨.exited 1, tr1 ++ [.manifestReadErr], ([], none)⟩
      | some data =>
        match w.parse data with
        | none => ⟨.exited 1, tr1 ++ [.manifestParseErr], ([], none)⟩
        | some config =>
          let tr2 := tr1 ++ [.configLoaded]
          if w.uninstallFlag then
            ⟨.exited 0, tr2 ++ [.uninstallMsg, .cleanupMsg, .removeWorkspace], ([], none)⟩
          else
            match findPort config.phpPort w.net with
            | (.error _, nevs) => ⟨.exited 1, tr2 ++ nevs ++ [.logPortErr], ([], none)⟩
            | (.ok port, nevs) =>
              let publicDir := inBundle tempDir config.publicRoot
              let cmd : CmdSpec :=
                { bin := resolvePhpBin fs tempDir config.phpBinaryPath
                  args := ["-S", "127.0.0.1:" ++ toString port, "-t", pathStr publicDir]
                  dir := publicDir.dropLast
                  env := buildEnv w.hostEnv config }
              match w.startErr with
              | some _ => ⟨.exited 1, tr2 ++ nevs ++ [.logStartErr], ([], none)⟩
              | none =>
                let url := "http://127.0.0.1:" ++ toString port ++ config.landingPageURL
                let browser := openBrowser w.goos config url w.spawnOk
                let tr5 := tr2 ++ nevs ++ [.procStarted cmd] ++
                  (if 0 < config.allowedDemoDurationMinutes then [Ev.scheduleTimer] else [])
                match firstTrigger w.sigAt config with
                | none => ⟨.blocked, tr5, browser⟩
                | some t =>
                  ⟨.exited 0,
                    tr5 ++ [.triggered t, .logShuttingDown, .killProc] ++
                      (match w.killErr with
                       | some _ => [Ev.logKillError]
                       | none => []) ++
                      [.cleanupMsg, .removeWorkspace],
                    browser⟩

/-- Concrete manifest used by the witnesses and counterexamples. -/
def cfgA : Manifest :=
  { appName := "Demo", appVersion := "1.0", windowWidth := 1200,
    windowHeight := 800, startMaximized := false, phpPort := 8080,
    dbType := "sqlite", dbPath := "database/database.sqlite",
    envVars := [("FOO", "bar")], demoModeEnvKey := "IS_DEMO_MODE",
    splashScreenImage := "", iconPath := "", landingPageURL := "/",
    phpBinaryPath := ["php", "php"], publicRoot := ["app", "public"],
    scrambleCode := false, scramblePluginPath := "", cleanOnExit := true,
    uninstallShortcut := false, allowedDemoDurationMinutes := 30 }

/-- Concrete embedded bundle tree, in walk order. -/
def entriesA : List BEntry :=
  [⟨["app"], true, ""⟩,
   ⟨["app", "public"], true, ""⟩,
   ⟨["app", "public", "index.php"], false, "hello"⟩,
   ⟨["manifest.json"], false, "CFG"⟩,
   ⟨["php"], true, ""⟩,
   ⟨["php", "php"], false, "ELF"⟩]

/-- Concrete temp directory returned by `os.MkdirTemp`. -/
def tdA : FPath := ["tmp", "laravel_demo_123"]

/-- Concrete successful run: signal-triggered shutdown at minute 5. -/
def worldA : World :=
  { mkdirTempRes := .ok tdA, entries := entriesA, writeErr := fun _ => none,
    parse := fun s => if s = "CFG" then some cfgA else none, net := .ok 43210,
    startErr := none, hostEnv := [("PATH", "/usr/bin"), ("HOME", "/root")],
    uninstallFlag := false, sigAt := some 5, killErr := none,
    removeErr := none, spawnOk := fun _ => true, goos := "linux" }

/-- Extraction result of the concrete run (total, since `worldA.writeErr`
never fails). -/
def fsopsA : FS × List DiskOp :=
  match extractBundle tdA entriesA worldA.writeErr with
  | .ok x => x
  | .error _ => ([], [])

/-- Run that shuts down by duration timeout: no OS signal ever arrives. -/
def worldTimeout : World := { worldA with sigAt := none }

/-- Run whose bundle extraction fails on the first file write. -/
def worldExtractFail : World := { worldA with writeErr := fun _ => some "disk full" }

/-- Run whose server launch (`cmd.Start()`) fails. -/
def worldStartFail : World := { worldA with startErr := some "exec format error" }

/-- Uninstall invocation whose extraction fails. -/
def worldUninstallFail : World := { worldExtractFail with uninstallFlag := true }

/-- Uninstall invocation on a healthy system. -/
def worldUninstallOk : World := { worldA with uninstallFlag := true }

/-- Shutdown in which both the kill and the workspace removal fail. -/
def worldC7 : World :=
  { worldA with killErr := some "process already gone", removeErr := some "device busy" }

/-- Manifest with a negative session duration. -/
def cfgNeg : Manifest := { cfgA with allowedDemoDurationMinutes := -2 }

/-- Run configured with a negative duration. -/
def worldNeg : World :=
  { worldA with parse := fun s => if s = "CFG" then some cfgNeg else none }


theorem fsGet_fsSet_self (fs : FS) (p : FPath) (n : FNode) :
    fsGet (fsSet fs p n) p = some n := by
  induction fs with
  | nil => simp [fsSet, fsGet]
  | cons kv rest ih =>
    obtain ⟨q, m⟩ := kv
    by_cases h : p = q <;> simp [fsSet, fsGet, h, ih]

theorem fsGet_fsSet_ne (fs : FS) (p q : FPath) (n : FNode) (h : p ≠ q) :
    fsGet (fsSet fs q n) p = fsGet fs p := by
  induction fs with
  | nil => simp [fsSet, fsGet, h]
  | cons kv rest ih =>
    obtain ⟨r, m⟩ := kv
    by_cases hq : q = r
    · subst hq; simp [fsSet, fsGet, h]
    · by_cases hp : p = r <;> simp [fsSet, fsGet, hq, hp, ih]

theorem mkdirList_preserve (qs : List FPath) (fs : FS) (p : FPath) (n : FNode)
    (h : fsGet fs p = some n) : fsGet (mkdirList qs fs) p = some n := by
  induction qs generalizing fs with
  | nil => simpa [mkdirList] using h
  | cons q rest ih =>
    simp only [mkdirList]
    by_cases hq : fsGet fs q = none
    · rw [if_pos hq]
      apply ih
      by_cases hpq : p = q
      · subst hpq; rw [h] at hq; cases hq
      · rw [fsGet_fsSet_ne _ _ _ _ hpq]; exact h
    · rw [if_neg hq]; exact ih _ h

theorem mkdirList_get (qs : List FPath) (fs : FS) (p : FPath) (n : FNode)
    (h : fsGet (mkdirList qs fs) p = some n) :
    fsGet fs p = some n ∨ n = FNode.dir := by
  induction qs generalizing fs with
  | nil => exact .inl (by simpa [mkdirList] using h)
  | cons q rest ih =>
    simp only [mkdirList] at h
    by_cases hq : fsGet fs q = none
    · rw [if_pos hq] at h
      rcases ih _ h with h2 | h2
      · by_cases hpq : p = q
        · subst hpq
          rw [fsGet_fsSet_self] at h2
          exact .inr (by cases h2; rfl)
        · rw [fsGet_fsSet_ne _ _ _ _ hpq] at h2; exact .inl h2
      · exact .inr h2
    · rw [if_neg hq] at h; exact ih _ h

theorem mkdirList_isSome (qs : List FPath) (fs : FS) (p : FPath) (hp : p ∈ qs) :
    (fsGet (mkdirList qs fs) p).isSome := by
  induction qs generalizing fs with
  | nil => cases hp
  | cons q rest ih =>
    simp only [mkdirList]
    rcases List.mem_cons.mp hp with rfl | hp'
    · by_cases hq : fsGet fs p = none
      · rw [if_pos hq, mkdirList_preserve rest _ p .dir (fsGet_fsSet_self fs p .dir)]
        rfl
      · rw [if_neg hq]
        obtain ⟨n, hn⟩ := Option.ne_none_iff_exists'.mp hq
        rw [mkdirList_preserve rest fs p n hn]
        rfl
    · by_cases hq : fsGet fs q = none
      · rw [if_pos hq]; exact ih _ hp'
      · rw [if_neg hq]; exact ih _ hp'

theorem prefix_of_mem_ancestors (p q : FPath) (h : q ∈ ancestors p) : q <+: p := by
  induction p generalizing q with
  | nil => cases h
  | cons a rest ih =>
    simp only [ancestors, List.mem_cons, List.mem_map] at h
    rcases h with rfl | ⟨q', hq', rfl⟩
    · exact ⟨rest, rfl⟩
    · exact List.cons_prefix_cons.mpr ⟨rfl, ih q' hq'⟩

theorem self_mem_ancestors (p : FPath) (h : p ≠ []) : p ∈ ancestors p := by
  induction p with
  | nil => exact absurd rfl h
  | cons a rest ih =>
    simp only [ancestors, List.mem_cons, List.mem_map]
    by_cases hr : rest = []
    · subst hr; left; rfl
    · right; exact ⟨rest, ih hr, rfl⟩

theorem mkdirAll_preserve (d : FPath) (fs : FS) (p : FPath) (n : FNode)
    (h : fsGet fs p = some n) : fsGet (mkdirAll d fs) p = some n :=
  mkdirList_preserve _ _ _ _ h

theorem mkdirAll_get (d : FPath) (fs : FS) (p : FPath) (n : FNode)
    (h : fsGet (mkdirAll d fs) p = some n) : fsGet fs p = some n ∨ n = FNode.dir :=
  mkdirList_get _ _ _ _ h

theorem mkdirAll_isSome (d : FPath) (fs : FS) (p : FPath) (hp : p ∈ ancestors d) :
    (fsGet (mkdirAll d fs) p).isSome :=
  mkdirList_isSome _ _ _ hp

theorem destOf_relPath_eq (td : FPath) (e f : BEntry)
    (h : destOf td e = destOf td f) : e.relPath = f.relPath := by
  have h2 := List.append_cancel_left (h : td ++ _ = td ++ _)
  simpa using h2

theorem destOf_prefix_relPath (td : FPath) (e f : BEntry)
    (h : destOf td e <+: destOf td f) : e.relPath <+: f.relPath := by
  have h2 := (List.prefix_append_right_inj td).mp (h : td ++ _ <+: td ++ _)
  exact (List.cons_prefix_cons.mp h2).2

theorem destOf_ne_nil (td : FPath) (e : BEntry) : destOf td e ≠ [] := by
  simp [destOf, inBundle]

theorem relPath_eq_entry_eq (ALL : List BEntry)
    (hPW : ALL.Pairwise (fun a b => a.relPath ≠ b.relPath))
    (e f : BEntry) (he : e ∈ ALL) (hf : f ∈ ALL) (h : e.relPath = f.relPath) :
    e = f := by
  by_contra hne
  have hsym : Symmetric (fun a b : BEntry => a.relPath ≠ b.relPath) := by
    intro a b hab hba
    exact hab hba.symm
  exact hPW.forall hsym he hf hne h

/-- No file entry of a well-formed tree can sit at a strict ancestor of
another entry's destination: the ancestor's path would be a proper prefix of
the other entry's path. -/
theorem no_file_at_ancestor (ALL : List BEntry) (td : FPath) (hWF : treeWF ALL)
    (e f : BEntry) (he : e ∈ ALL) (hf : f ∈ ALL) (hfd : f.isDir = false)
    (q : FPath) (hq : q ∈ ancestors (destOf td e).dropLast)
    (heq : q = destOf td f) : False := by
  subst heq
  have h1 : destOf td f <+: destOf td e :=
    (prefix_of_mem_ancestors _ _ hq).trans (List.dropLast_prefix _)
  have h2 : f.relPath <+: e.relPath := destOf_prefix_relPath td f e h1
  have h3 : f = e := hWF.2.2 f hf e he hfd h2
  subst h3
  have h4 : (destOf td f).length ≤ (destOf td f).dropLast.length :=
    (prefix_of_mem_ancestors _ _ hq).length_le
  rw [List.length_dropLast] at h4
  have h5 : 0 < (destOf td f).length := List.length_pos.mpr (destOf_ne_nil td f)
  omega

theorem extractGo_spec (td : FPath) (we : FPath → Option String) (ALL : List BEntry)
    (hWF : treeWF ALL) :
    ∀ (entries : List BEntry), List.Sublist entries ALL →
    ∀ (fs fs' : FS) (ops : List DiskOp), onlyBundleFiles ALL td fs →
      extractGo td we entries fs = .ok (fs', ops) →
      onlyBundleFiles ALL td fs' ∧
      (∀ p n, fsGet fs p = some n →
        fsGet fs' p = some n ∨ ∃ e, e ∈ entries ∧ e.isDir = false ∧ p = destOf td e) ∧
      (∀ e ∈ entries, e.isDir = false →
        fsGet fs' (destOf td e) = some (.file e.content 0o755)) ∧
      (∀ e ∈ entries, e.isDir = true → fsGet fs' (destOf td e) = some .dir) ∧
      (∀ e ∈ entries, e.isDir = false →
        ∀ q ∈ ancestors (destOf td e).dropLast, fsGet fs' q = some .dir) := by
  intro entries
  induction entries with
  | nil =>
    intro _ fs fs' ops hInv heq
    simp only [extractGo, Except.ok.injEq, Prod.mk.injEq] at heq
    obtain ⟨rfl, rfl⟩ := heq
    refine ⟨hInv, fun p n h => .inl h, ?_, ?_, ?_⟩ <;> simp
  | cons e rest ih =>
    intro hsub fs fs' ops hInv heq
    have hsubRest : List.Sublist rest ALL :=
      (List.sublist_cons_self e rest).trans hsub
    have heMem : e ∈ ALL := hsub.subset (List.mem_cons_self e rest)
    have hPW : (e :: rest).Pairwise (fun a b => a.relPath ≠ b.relPath) :=
      hWF.1.sublist hsub
    have hPWe : ∀ f ∈ rest, e.relPath ≠ f.relPath := (List.pairwise_cons.mp hPW).1
    simp only [extractGo] at heq
    by_cases hdir : e.isDir = true
    · rw [if_pos hdir] at heq
      rcases hrec : extractGo td we rest (mkdirAll (destOf td e) fs) with m | ⟨fs2, ops2⟩
      · rw [hrec] at heq; cases heq
      · rw [hrec] at heq
        simp only [Except.ok.injEq, Prod.mk.injEq] at heq
        obtain ⟨rfl, rfl⟩ := heq
        have hInvm : onlyBundleFiles ALL td (mkdirAll (destOf td e) fs) := by
          intro p c m hp
          rcases mkdirAll_get _ _ _ _ hp with h2 | h2
          · exact hInv p c m h2
          · simp at h2
        obtain ⟨Inv', Pres', A', B', E'⟩ := ih hsubRest _ fs2 ops2 hInvm hrec
        refine ⟨Inv', ?_, ?_, ?_, ?_⟩
        · intro p n hp
          rcases Pres' p n (mkdirAll_preserve _ _ _ _ hp) with h | ⟨f, hf, hfd, hpf⟩
          · exact .inl h
          · exact .inr ⟨f, List.mem_cons_of_mem e hf, hfd, hpf⟩
        · intro f hf hfd
          rcases List.mem_cons.mp hf with rfl | hf'
          · rw [hdir] at hfd; cases hfd
          · exact A' f hf' hfd
        · intro f hf hfd
          rcases List.mem_cons.mp hf with rfl | hf'
          · have h1 : (fsGet (mkdirAll (destOf td f) fs) (destOf td f)).isSome :=
              mkdirAll_isSome _ _ _ (self_mem_ancestors _ (destOf_ne_nil td f))
            obtain ⟨n, hn⟩ := Option.isSome_iff_exists.mp h1
            have hndir : n = .dir := by
              rcases mkdirAll_get _ _ _ _ hn with h2 | h2
              · cases n with
                | dir => rfl
                | file c m =>
                  obtain ⟨g, hg, hgd, hpg, -, -⟩ := hInv _ _ _ h2
                  have hfg : f = g :=
                    relPath_eq_entry_eq ALL hWF.1 f g heMem hg
                      (destOf_relPath_eq td f g hpg)
                  rw [hfg, hgd] at hdir; cases hdir
              · exact h2
            subst hndir
            rcases Pres' _ _ hn with h2 | ⟨g, hg, hgd, hpg⟩
            · exact h2
            · exact absurd (destOf_relPath_eq td f g hpg) (hPWe g hg)
          · exact B' f hf' hfd
        · intro f hf hfd
          rcases List.mem_cons.mp hf with rfl | hf'
          · rw [hdir] at hfd; cases hfd
          · exact E' f hf' hfd
    · rw [if_neg hdir] at heq
      have hb : e.isDir = false := by simpa using hdir
      rcases hwe : we (destOf td e) with - | m
      rotate_left
      · rw [hwe] at heq; cases heq
      rw [hwe] at heq
      rcases hrec : extractGo td we rest
          (fsSet (mkdirAll (destOf td e).dropLast fs) (destOf td e)
            (.file e.content 0o755)) with m | ⟨fs2, ops2⟩
      · rw [hrec] at heq; cases heq
      · rw [hrec] at heq
        simp only [Except.ok.injEq, Prod.mk.injEq] at heq
        obtain ⟨rfl, rfl⟩ := heq
        have hInvm : onlyBundleFiles ALL td
            (fsSet (mkdirAll (destOf td e).dropLast fs) (destOf td e)
              (.file e.content 0o755)) := by
          intro p c m hp
          by_cases hpd : p = destOf td e
          · subst hpd
            rw [fsGet_fsSet_self] at hp
            injection hp with h
            injection h with h1 h2
            exact ⟨e, heMem, hb, rfl, h1.symm, h2.symm⟩
          · rw [fsGet_fsSet_ne _ _ _ _ hpd] at hp
            rcases mkdirAll_get _ _ _ _ hp with h2 | h2
            · exact hInv p c m h2
            · simp at h2
        obtain ⟨Inv', Pres', A', B', E'⟩ := ih hsubRest _ fs2 ops2 hInvm hrec
        refine ⟨Inv', ?_, ?_, ?_, ?_⟩
        · intro p n hp
          by_cases hpd : p = destOf td e
          · exact .inr ⟨e, List.mem_cons_self e rest, hb, hpd⟩
          · have h1 := mkdirAll_preserve (destOf td e).dropLast fs p n hp
            rw [← fsGet_fsSet_ne _ p (destOf td e) (.file e.content 0o755) hpd] at h1
            rcases Pres' p n h1 with h | ⟨f, hf, hfd, hpf⟩
            · exact .inl h
            · exact .inr ⟨f, List.mem_cons_of_mem e hf, hfd, hpf⟩
        · intro f hf hfd
          rcases List.mem_cons.mp hf with rfl | hf'
          · have h1 : fsGet (fsSet (mkdirAll (destOf td f).dropLast fs) (destOf td f)
                (.file f.content 0o755)) (destOf td f) = some (.file f.content 0o755) :=
              fsGet_fsSet_self _ _ _
            rcases Pres' _ _ h1 with h2 | ⟨g, hg, hgd, hpg⟩
            · exact h2
            · exact absurd (destOf_relPath_eq td f g hpg) (hPWe g hg)
          · exact A' f hf' hfd
        · intro f hf hfd
          rcases List.mem_cons.mp hf with rfl | hf'
          · rw [hb] at hfd; cases hfd
          · exact B' f hf' hfd
        · intro f hf hfd
          rcases List.mem_cons.mp hf with rfl | hf'
          · intro q hq
            have h1 : (fsGet (mkdirAll (destOf td f).dropLast fs) q).isSome :=
              mkdirAll_isSome _ _ _ hq
            obtain ⟨n, hn⟩ := Option.isSome_iff_exists.mp h1
            have hndir : n = .dir := by
              rcases mkdirAll_get _ _ _ _ hn with h2 | h2
              · cases n with
                | dir => rfl
                | file c m =>
                  obtain ⟨g, hg, hgd, hpg, -, -⟩ := hInv _ _ _ h2
                  exact (no_file_at_ancestor ALL td hWF f g heMem hg hgd q hq hpg).elim
              · exact h2
            subst hndir
            have hqne : q ≠ destOf td f := by
              intro h
              have hle : q.length ≤ (destOf td f).dropLast.length :=
                (prefix_of_mem_ancestors _ _ hq).length_le
              rw [List.length_dropLast] at hle
              have hpos : 0 < (destOf td f).length :=
                List.length_pos.mpr (destOf_ne_nil td f)
              rw [h] at hle
              omega
            have h2 : fsGet (fsSet (mkdirAll (destOf td f).dropLast fs) (destOf td f)
                (.file f.content 0o755)) q = some .dir := by
              rw [fsGet_fsSet_ne _ _ _ _ hqne]; exact hn
            rcases Pres' _ _ h2 with h3 | ⟨g, hg, hgd, hpg⟩
            · exact h3
            · exact (no_file_at_ancestor ALL td hWF f g heMem (hsubRest.subset hg)
                hgd q hq hpg).elim
          · exact E' f hf' hfd

theorem extractGo_ops (td : FPath) (we : FPath → Option String) :
    ∀ (entries : List BEntry) (fs fs' : FS) (ops : List DiskOp),
      extractGo td we entries fs = .ok (fs', ops) →
      ∀ e ∈ entries, e.isDir = false →
        ∃ l r, ops = l ++ DiskOp.mkdirAllOp (destOf td e).dropLast ::
          DiskOp.writeFileOp (destOf td e) e.content 0o755 :: r := by
  intro entries
  induction entries with
  | nil =>
    intro fs fs' ops heq f hf
    cases hf
  | cons e rest ih =>
    intro fs fs' ops heq f hf hfd
    simp only [extractGo] at heq
    by_cases hdir : e.isDir = true
    · rw [if_pos hdir] at heq
      rcases hrec : extractGo td we rest (mkdirAll (destOf td e) fs) with m | ⟨fs2, ops2⟩
      · rw [hrec] at heq; cases heq
      · rw [hrec] at heq
        simp only [Except.ok.injEq, Prod.mk.injEq] at heq
        obtain ⟨rfl, rfl⟩ := heq
        rcases List.mem_cons.mp hf with rfl | hf'
        · rw [hdir] at hfd; cases hfd
        · obtain ⟨l, r, hl⟩ := ih _ _ _ hrec f hf' hfd
          exact ⟨DiskOp.mkdirAllOp (destOf td e) :: l, r, by simp [hl]⟩
    · rw [if_neg hdir] at heq
      rcases hwe : we (destOf td e) with - | m
      rotate_left
      · rw [hwe] at heq; cases heq
      rw [hwe] at heq
      rcases hrec : extractGo td we rest
          (fsSet (mkdirAll (destOf td e).dropLast fs) (destOf td e)
            (.file e.content 0o755)) with m | ⟨fs2, ops2⟩
      · rw [hrec] at heq; cases heq
      · rw [hrec] at heq
        simp only [Except.ok.injEq, Prod.mk.injEq] at heq
        obtain ⟨rfl, rfl⟩ := heq
        rcases List.mem_cons.mp hf with rfl | hf'
        · exact ⟨[], ops2, rfl⟩
        · obtain ⟨l, r, hl⟩ := ih _ _ _ hrec f hf' hfd
          exact ⟨DiskOp.mkdirAllOp (destOf td e).dropLast ::
            DiskOp.writeFileOp (destOf td e) e.content 0o755 :: l, r, by simp [hl]⟩

/-- C5: after a successful bundle extraction of a well-formed embedded tree,
every source file exists with identical content at its relative path under the
workspace with mode `0755` (executable), every source directory exists, every
file on disk comes from a source file (no extras), all parent directories of
each written file exist, and in the operation sequence the `MkdirAll` of a
file's parent immediately precedes the file's write. -/
theorem c5_extraction_correct (td : FPath) (entries : List BEntry)
    (we : FPath → Option String) (fs : FS) (ops : List DiskOp)
    (hWF : treeWF entries)
    (heq : extractBundle td entries we = .ok (fs, ops)) :
    (∀ e ∈ entries, e.isDir = false →
      fsGet fs (destOf td e) = some (.file e.content 0o755)) ∧
    (∀ e ∈ entries, e.isDir = true → fsGet fs (destOf td e) = some .dir) ∧
    (∀ p c m, fsGet fs p = some (.file c m) →
      ∃ e, e ∈ entries ∧ e.isDir = false ∧ p = destOf td e ∧ c = e.content ∧ m = 0o755) ∧
    (∀ e ∈ entries, e.isDir = false →
      ∀ q ∈ ancestors (destOf td e).dropLast, fsGet fs q = some .dir) ∧
    (∀ e ∈ entries, e.isDir = false →
      ∃ l r, ops = l ++ DiskOp.mkdirAllOp (destOf td e).dropLast ::
        DiskOp.writeFileOp (destOf td e) e.content 0o755 :: r) := by
  unfold extractBundle at heq
  rcases hrec : extractGo td we entries (mkdirAll (inBundle td []) []) with m | ⟨fs2, ops2⟩
  · rw [hrec] at heq; cases heq
  · rw [hrec] at heq
    simp only [Except.ok.injEq, Prod.mk.injEq] at heq
    obtain ⟨rfl, rfl⟩ := heq
    have hInv0 : onlyBundleFiles entries td (mkdirAll (inBundle td []) []) := by
      intro p c m hp
      rcases mkdirAll_get _ _ _ _ hp with h2 | h2
      · simp [fsGet] at h2
      · simp at h2
    obtain ⟨Inv', -, A, B, E⟩ := extractGo_spec td we entries hWF entries
      (List.Sublist.refl entries) _ fs2 ops2 hInv0 hrec
    refine ⟨A, B, Inv', E, ?_⟩
    intro e he hed
    obtain ⟨l, r, hl⟩ := extractGo_ops td we entries _ _ _ hrec e he hed
    exact ⟨DiskOp.mkdirAllOp (inBundle td []) :: l, r, by simp [hl]⟩

/-- Exhaustive shapes of the event list produced by `findPort`. -/
theorem findPort_evs_cases (pp : Int) (net : NetResult) :
    (findPort pp net).2 = [] ∨
    (findPort pp net).2 = [Ev.netResolve "localhost:0"] ∨
    (findPort pp net).2 = [Ev.netResolve "localhost:0", Ev.netListen "localhost" 0] ∨
    (findPort pp net).2 =
      [Ev.netResolve "localhost:0", Ev.netListen "localhost" 0, Ev.netClose] := by
  unfold findPort getFreePort
  by_cases hpp : pp = 0 <;> cases net <;> simp [hpp]

/-- Child command constructed by `main` before `cmd.Start()`. -/
def cmdOf (w : World) (td : FPath) (fs : FS) (config : Manifest) (port : Int) : CmdSpec :=
  { bin := resolvePhpBin fs td config.phpBinaryPath
    args := ["-S", "127.0.0.1:" ++ toString port, "-t", pathStr (inBundle td config.publicRoot)]
    dir := (inBundle td config.publicRoot).dropLast
    env := buildEnv w.hostEnv config }

/-- Explicit form of a run that reaches `Serving` and is then shut down by a
trigger. -/
theorem runMain_serving (w : World) (td : FPath) (fs : FS) (ops : List DiskOp)
    (data : String) (config : Manifest) (port : Int) (nevs : List Ev) (t : Trigger)
    (h1 : w.mkdirTempRes = .ok td)
    (h2 : extractBundle td w.entries w.writeErr = .ok (fs, ops))
    (h3 : readFile fs (inBundle td ["manifest.json"]) = some data)
    (h4 : w.parse data = some config)
    (h5 : w.uninstallFlag = false)
    (h6 : findPort config.phpPort w.net = (.ok port, nevs))
    (h7 : w.startErr = none)
    (h8 : firstTrigger w.sigAt config = some t) :
    runMain w = ⟨.exited 0,
      [Ev.tempDirCreated, Ev.extractStart, Ev.extractDone, Ev.configLoaded] ++ nevs ++
        [Ev.procStarted (cmdOf w td fs config port)] ++
        (if 0 < config.allowedDemoDurationMinutes then [Ev.scheduleTimer] else []) ++
        [Ev.triggered t, Ev.logShuttingDown, Ev.killProc] ++
        (match w.killErr with
         | some _ => [Ev.logKillError]
         | none => []) ++
        [Ev.cleanupMsg, Ev.removeWorkspace],
      openBrowser w.goos config
        ("http://127.0.0.1:" ++ toString port ++ config.landingPageURL) w.spawnOk⟩ := by
  unfold runMain
  simp only [h1, h2, h3, h4, h5, h6, h7, h8]
  simp [cmdOf]

/-- C1: exit-path coverage of workspace deletion.  On the two failure paths
(extraction failure, launch failure) the process exits with status 1 after the
workspace was created, yet the trace contains no workspace removal: `os.Exit`
does not run the deferred `os.RemoveAll`.  On the two shutdown paths (signal,
duration timeout) the workspace is removed and the process exits 0. -/
theorem c1_workspace_leak_on_failure :
    ((runMain worldExtractFail).outcome = .exited 1 ∧
      Ev.tempDirCreated ∈ (runMain worldExtractFail).trace ∧
      Ev.removeWorkspace ∉ (runMain worldExtractFail).trace) ∧
    ((runMain worldStartFail).outcome = .exited 1 ∧
      Ev.tempDirCreated ∈ (runMain worldStartFail).trace ∧
      Ev.removeWorkspace ∉ (runMain worldStartFail).trace) ∧
    ((runMain worldA).outcome = .exited 0 ∧
      Ev.removeWorkspace ∈ (runMain worldA).trace) ∧
    ((runMain worldTimeout).outcome = .exited 0 ∧
      Ev.removeWorkspace ∈ (runMain worldTimeout).trace) := by decide

/-- C2 (counterexample): a fully successful run performs and completes bundle
extraction strictly before the configuration is loaded — the claim's order
(configuration load before extraction) is false. -/
theorem c2_counterexample :
    (runMain worldA).trace.take 4 =
      [Ev.tempDirCreated, Ev.extractStart, Ev.extractDone, Ev.configLoaded] ∧
    Ev.configLoaded ∉ (runMain worldA).trace.take 3 := by decide

/-- C2 (amended): in every run that loads the configuration, bundle extraction
has already completed — the first four events are temp-dir creation,
extraction start, extraction completion, then configuration load (the manifest
is read from the extracted workspace). -/
theorem c2_extraction_before_config (w : World)
    (h : Ev.configLoaded ∈ (runMain w).trace) :
    (runMain w).trace.take 4 =
      [Ev.tempDirCreated, Ev.extractStart, Ev.extractDone, Ev.configLoaded] := by
  unfold runMain at h ⊢
  rcases hmt : w.mkdirTempRes with m | td
  · simp [hmt] at h
  simp only [hmt] at h ⊢
  rcases hex : extractBundle td w.entries w.writeErr with m | ⟨fs, ops⟩
  · simp [hex] at h
  simp only [hex] at h ⊢
  rcases hrf : readFile fs (inBundle td ["manifest.json"]) with - | data
  · simp [hrf] at h
  simp only [hrf] at h ⊢
  rcases hp : w.parse data with - | config
  · simp [hp] at h
  simp only [hp] at h ⊢
  by_cases hu : w.uninstallFlag
  · simp [hu]
  rcases hfp : findPort config.phpPort w.net with ⟨res, nevs⟩
  rcases res with m | port
  · simp [hu, hfp]
  rcases hse : w.startErr with - | m
  · rcases hft : firstTrigger w.sigAt config with - | t <;> simp [hu, hfp, hse, hft]
  · simp [hu, hfp, hse]

/-- C2 (witness): the concrete successful run loads its configuration, and the
amended ordering holds there. -/
theorem c2_extraction_before_config_witness :
    (runMain worldA).trace.take 4 =
      [Ev.tempDirCreated, Ev.extractStart, Ev.extractDone, Ev.configLoaded] :=
  c2_extraction_before_config worldA (by decide)

/-- C4 (counterexample): with the uninstall flag set but bundle extraction
failing, the launcher exits with status 1, not 0 — the uninstall path is only
reached after workspace creation, extraction and manifest load succeed. -/
theorem c4_counterexample :
    worldUninstallFail.uninstallFlag = true ∧
    (runMain worldUninstallFail).outcome = .exited 1 := by decide

/-- C4 (amended): when the uninstall flag is set and startup (workspace
creation, extraction, manifest load) succeeds, the launcher prints the
informational message, deletes the workspace via the deferred cleanup, and
exits 0 having started no server and probed no port. -/
theorem c4_uninstall_noop (w : World) (td : FPath) (fs : FS) (ops : List DiskOp)
    (data : String) (config : Manifest)
    (h1 : w.mkdirTempRes = .ok td)
    (h2 : extractBundle td w.entries w.writeErr = .ok (fs, ops))
    (h3 : readFile fs (inBundle td ["manifest.json"]) = some data)
    (h4 : w.parse data = some config)
    (h5 : w.uninstallFlag = true) :
    runMain w = ⟨.exited 0,
      [Ev.tempDirCreated, Ev.extractStart, Ev.extractDone, Ev.configLoaded,
       Ev.uninstallMsg, Ev.cleanupMsg, Ev.removeWorkspace], ([], none)⟩ := by
  unfold runMain
  simp only [h1, h2, h3, h4, h5]
  simp

/-- C4 (witness): concrete uninstall invocation on a healthy system. -/
theorem c4_uninstall_noop_witness :
    runMain worldUninstallOk = ⟨.exited 0,
      [Ev.tempDirCreated, Ev.extractStart, Ev.extractDone, Ev.configLoaded,
       Ev.uninstallMsg, Ev.cleanupMsg, Ev.removeWorkspace], ([], none)⟩ :=
  c4_uninstall_noop worldUninstallOk tdA fsopsA.1 fsopsA.2 "CFG" cfgA
    rfl rfl (by decide) rfl rfl

/-- C6: the port allocator returns a nonzero configured port unchanged with no
network activity; for a configured port of `0` it resolves `localhost:0`,
binds a throwaway loopback listener on port 0, returns the OS-assigned port,
and the probe socket's close is the last action before returning. -/
theorem c6_port_allocator (phpPort : Int) (net : NetResult) (p : Int) :
    (phpPort ≠ 0 → findPort phpPort net = (.ok phpPort, [])) ∧
    (net = .ok p → findPort 0 net =
      (.ok p, [Ev.netResolve "localhost:0", Ev.netListen "localhost" 0, Ev.netClose])) := by
  constructor
  · intro h
    unfold findPort
    rw [if_neg h]
  · intro h
    subst h
    simp [findPort, getFreePort]

/-- C6 (witness): both branches at concrete inputs. -/
theorem c6_port_allocator_witness :
    findPort 8080 (.ok 43210) = (.ok 8080, []) ∧
    findPort 0 (.ok 43210) =
      (.ok 43210, [Ev.netResolve "localhost:0", Ev.netListen "localhost" 0, Ev.netClose]) :=
  ⟨(c6_port_allocator 8080 (.ok 43210) 43210).1 (by decide),
   (c6_port_allocator 0 (.ok 43210) 43210).2 rfl⟩

/-- C7 (counterexample): in a shutdown where the workspace removal fails, the
launcher logs nothing about it — the error returned by `os.RemoveAll` is
discarded — so "a failure of either step is logged" is false (the run still
exits cleanly). -/
theorem c7_counterexample :
    worldC7.removeErr = some "device busy" ∧
    Ev.logRemoveError ∉ (runMain worldC7).trace ∧
    (runMain worldC7).outcome = .exited 0 := by decide

/-- C7 (amended): on every shutdown from `Serving`, the child process is
killed strictly before the workspace is deleted; a kill failure is logged and
not escalated; a workspace-removal failure is neither logged nor escalated
(its error is discarded); the launcher exits with status 0 either way. -/
theorem c7_shutdown_order (w : World) (td : FPath) (fs : FS) (ops : List DiskOp)
    (data : String) (config : Manifest) (port : Int) (nevs : List Ev) (t : Trigger)
    (h1 : w.mkdirTempRes = .ok td)
    (h2 : extractBundle td w.entries w.writeErr = .ok (fs, ops))
    (h3 : readFile fs (inBundle td ["manifest.json"]) = some data)
    (h4 : w.parse data = some config)
    (h5 : w.uninstallFlag = false)
    (h6 : findPort config.phpPort w.net = (.ok port, nevs))
    (h7 : w.startErr = none)
    (h8 : firstTrigger w.sigAt config = some t) :
    (runMain w).outcome = .exited 0 ∧
    (∃ l r, (runMain w).trace = l ++ Ev.killProc :: r ∧
      Ev.removeWorkspace ∈ r ∧ Ev.removeWorkspace ∉ l) ∧
    (w.killErr ≠ none → Ev.logKillError ∈ (runMain w).trace) ∧
    Ev.logRemoveError ∉ (runMain w).trace := by
  have hr := runMain_serving w td fs ops data config port nevs t h1 h2 h3 h4 h5 h6 h7 h8
  have hnv : (findPort config.phpPort w.net).2 = nevs := by rw [h6]
  rw [hr]
  refine ⟨rfl, ?_, ?_, ?_⟩
  · refine ⟨[Ev.tempDirCreated, Ev.extractStart, Ev.extractDone, Ev.configLoaded] ++ nevs ++
      [Ev.procStarted (cmdOf w td fs config port)] ++
      (if 0 < config.allowedDemoDurationMinutes then [Ev.scheduleTimer] else []) ++
      [Ev.triggered t, Ev.logShuttingDown],
      (match w.killErr with
       | some _ => [Ev.logKillError]
       | none => []) ++ [Ev.cleanupMsg, Ev.removeWorkspace], ?_, ?_, ?_⟩
    · rcases hke : w.killErr with - | m <;> simp [hke]
    · rcases hke : w.killErr with - | m <;> simp [hke]
    · rcases findPort_evs_cases config.phpPort w.net with hc | hc | hc | hc <;>
        rw [hnv] at hc <;> subst hc <;>
        by_cases hd : 0 < config.allowedDemoDurationMinutes <;> simp [hd]
  · intro hk
    rcases hke : w.killErr with - | m
    · exact absurd hke hk
    · simp [hke]
  · rcases hke : w.killErr with - | m <;>
      rcases findPort_evs_cases config.phpPort w.net with hc | hc | hc | hc <;>
      rw [hnv] at hc <;> subst hc <;>
      by_cases hd : 0 < config.allowedDemoDurationMinutes <;> simp [hd, hke]

/-- C7 (witness): concrete shutdown in which both best-effort steps fail. -/
theorem c7_shutdown_order_witness :
    (runMain worldC7).outcome = .exited 0 ∧
    Ev.logKillError ∈ (runMain worldC7).trace ∧
    Ev.logRemoveError ∉ (runMain worldC7).trace := by
  have h := c7_shutdown_order worldC7 tdA fsopsA.1 fsopsA.2 "CFG" cfgA 8080 []
    Trigger.osSignal rfl rfl (by decide) rfl rfl rfl rfl (by decide)
  exact ⟨h.1, h.2.2.1 (by decide), h.2.2.2⟩

/-- C10: in a run that reaches `Serving`, the duration-timeout watcher is
scheduled exactly when `allowed_demo_duration_minutes` is strictly positive,
and for a zero or negative value the run can never shut down by timeout. -/
theorem c10_timer_iff (w : World) (td : FPath) (fs : FS) (ops : List DiskOp)
    (data : String) (config : Manifest) (port : Int) (nevs : List Ev)
    (h1 : w.mkdirTempRes = .ok td)
    (h2 : extractBundle td w.entries w.writeErr = .ok (fs, ops))
    (h3 : readFile fs (inBundle td ["manifest.json"]) = some data)
    (h4 : w.parse data = some config)
    (h5 : w.uninstallFlag = false)
    (h6 : findPort config.phpPort w.net = (.ok port, nevs))
    (h7 : w.startErr = none) :
    (Ev.scheduleTimer ∈ (runMain w).trace ↔ 0 < config.allowedDemoDurationMinutes) ∧
    (config.allowedDemoDurationMinutes ≤ 0 →
      firstTrigger w.sigAt config ≠ some Trigger.timeout ∧
      Ev.triggered Trigger.timeout ∉ (runMain w).trace) := by
  have hnv : (findPort config.phpPort w.net).2 = nevs := by rw [h6]
  have hnevs4 := findPort_evs_cases config.phpPort w.net
  rw [hnv] at hnevs4
  have hnot : config.allowedDemoDurationMinutes ≤ 0 →
      firstTrigger w.sigAt config ≠ some Trigger.timeout := by
    intro hle
    unfold firstTrigger
    rw [if_neg (by omega)]
    rcases w.sigAt with - | s <;> simp
  unfold runMain
  simp only [h1, h2, h3, h4, h5, h6, h7]
  rcases hft : firstTrigger w.sigAt config with - | t
  · constructor
    · rcases hnevs4 with hc | hc | hc | hc <;> subst hc <;>
        by_cases hd : 0 < config.allowedDemoDurationMinutes <;> simp [hd]
    · intro hle
      refine ⟨by simp, ?_⟩
      rcases hnevs4 with hc | hc | hc | hc <;> subst hc <;>
        simp [show ¬ 0 < config.allowedDemoDurationMinutes by omega]
  · constructor
    · rcases hke : w.killErr with - | m <;>
        rcases hnevs4 with hc | hc | hc | hc <;> subst hc <;>
        by_cases hd : 0 < config.allowedDemoDurationMinutes <;> simp [hd, hke]
    · intro hle
      have ht : t ≠ Trigger.timeout := by
        intro h
        exact hnot hle (h ▸ hft)
      refine ⟨by simp [ht], ?_⟩
      rcases hke : w.killErr with - | m <;>
        rcases hnevs4 with hc | hc | hc | hc <;> subst hc <;>
        simp [show ¬ 0 < config.allowedDemoDurationMinutes by omega, hke, ht, ht.symm]

/-- C10 (witness): a concrete negative-duration run schedules no timer and
cannot time out. -/
theorem c10_timer_iff_witness :
    Ev.scheduleTimer ∉ (runMain worldNeg).trace ∧
    firstTrigger worldNeg.sigAt cfgNeg ≠ some Trigger.timeout ∧
    Ev.triggered Trigger.timeout ∉ (runMain worldNeg).trace := by
  have h := c10_timer_iff worldNeg tdA fsopsA.1 fsopsA.2 "CFG" cfgNeg 8080 []
    rfl rfl (by decide) rfl rfl rfl rfl
  refine ⟨fun hmem => ?_, (h.2 (by decide)).1, (h.2 (by decide)).2⟩
  exact absurd (h.1.mp hmem) (by decide)

/-- C8 (counterexample): when the configured binary path is absent from the
workspace, `main` falls back to the fixed name `php`, not to the base name of
the configured binary resolved via the search path as the claim states. -/
theorem c8_counterexample :
    resolvePhpBin [] tdA ["php8"] = ["php"] ∧
    resolvePhpBinClaim [] tdA ["php8"] = ["php8"] ∧
    resolvePhpBin [] tdA ["php8"] ≠ resolvePhpBinClaim [] tdA ["php8"] := by decide

/-- C8 (amended): the server is launched with the configured binary path
inside the extracted bundle when it exists, with the fixed name `php` (system
search path) when it does not, and in every case with the working directory
set to the parent of the document root. -/
theorem c8_binary_fallback_and_workdir (w : World) (td : FPath) (fs : FS)
    (ops : List DiskOp) (data : String) (config : Manifest) (port : Int) (nevs : List Ev)
    (h1 : w.mkdirTempRes = .ok td)
    (h2 : extractBundle td w.entries w.writeErr = .ok (fs, ops))
    (h3 : readFile fs (inBundle td ["manifest.json"]) = some data)
    (h4 : w.parse data = some config)
    (h5 : w.uninstallFlag = false)
    (h6 : findPort config.phpPort w.net = (.ok port, nevs))
    (h7 : w.startErr = none) :
    Ev.procStarted (cmdOf w td fs config port) ∈ (runMain w).trace ∧
    (cmdOf w td fs config port).dir = (inBundle td config.publicRoot).dropLast ∧
    (fsGet fs (inBundle td config.phpBinaryPath) = none →
      (cmdOf w td fs config port).bin = ["php"]) ∧
    (∀ n, fsGet fs (inBundle td config.phpBinaryPath) = some n →
      (cmdOf w td fs config port).bin = inBundle td config.phpBinaryPath) := by
  refine ⟨?_, rfl, ?_, ?_⟩
  · unfold runMain
    simp only [h1, h2, h3, h4, h5, h6, h7]
    rcases hft : firstTrigger w.sigAt config with - | t <;> simp [cmdOf]
  · intro h
    simp [cmdOf, resolvePhpBin, h]
  · intro n h
    simp [cmdOf, resolvePhpBin, h]

/-- C8 (witness): in the concrete run the configured binary exists in the
workspace and is used, and the working directory is the document root's
parent. -/
theorem c8_binary_fallback_and_workdir_witness :
    Ev.procStarted (cmdOf worldA tdA fsopsA.1 cfgA 8080) ∈ (runMain worldA).trace ∧
    (cmdOf worldA tdA fsopsA.1 cfgA 8080).dir = (inBundle tdA cfgA.publicRoot).dropLast ∧
    (cmdOf worldA tdA fsopsA.1 cfgA 8080).bin = inBundle tdA cfgA.phpBinaryPath := by
  have h := c8_binary_fallback_and_workdir worldA tdA fsopsA.1 fsopsA.2 "CFG" cfgA
    8080 [] rfl rfl (by decide) rfl rfl rfl rfl
  exact ⟨h.1, h.2.1, h.2.2.2 (FNode.file "ELF" 0o755) (by decide)⟩

theorem lastVal_append (xs ys : List (String × String)) (k : String) :
    lastVal (xs ++ ys) k =
      match lastVal ys k with
      | some v => some v
      | none => lastVal xs k := by
  induction xs with
  | nil =>
    cases h : lastVal ys k <;> simp [lastVal, h]
  | cons kv rest ih =>
    simp only [List.cons_append, lastVal, List.append_eq]
    rw [ih]
    cases hys : lastVal ys k <;> cases hrest : lastVal rest k <;> simp [hys, hrest]

theorem lastVal_eq_none (l : List (String × String)) (k : String)
    (h : k ∉ l.map Prod.fst) : lastVal l k = none := by
  induction l with
  | nil => rfl
  | cons kv rest ih =>
    simp only [List.map_cons, List.mem_cons] at h
    push_neg at h
    simp only [lastVal, ih h.2]
    rw [if_neg fun he => h.1 he.symm]

theorem lastVal_of_nodup_mem (l : List (String × String)) (k v : String)
    (hnd : (l.map Prod.fst).Nodup) (hm : (k, v) ∈ l) : lastVal l k = some v := by
  induction l with
  | nil => cases hm
  | cons kv rest ih =>
    simp only [List.map_cons, List.nodup_cons] at hnd
    rcases List.mem_cons.mp hm with rfl | hm'
    · have hk : k ∉ rest.map Prod.fst := by simpa using hnd.1
      simp [lastVal, lastVal_eq_none rest k hk]
    · simp [lastVal, ih hnd.2 hm']

/-- C3: the child environment is the inherited host environment, then the
demo-mode key bound to `"true"`, then every entry of `env_vars`; under the
last-entry-wins resolution `os/exec` applies, an `env_vars` entry overrides
both the demo-mode flag and any inherited variable on key collision, the
demo-mode key reads `"true"` when not overridden, and variables untouched by
either addition keep their inherited value. -/
theorem c3_child_env (host : List (String × String)) (cfg : Manifest) (k v : String)
    (hnd : (cfg.envVars.map Prod.fst).Nodup) :
    buildEnv host cfg = host ++ [(cfg.demoModeEnvKey, "true")] ++ cfg.envVars ∧
    ((k, v) ∈ cfg.envVars → lastVal (buildEnv host cfg) k = some v) ∧
    (cfg.demoModeEnvKey ∉ cfg.envVars.map Prod.fst →
      lastVal (buildEnv host cfg) cfg.demoModeEnvKey = some "true") ∧
    (k ∉ cfg.envVars.map Prod.fst → k ≠ cfg.demoModeEnvKey →
      lastVal (buildEnv host cfg) k = lastVal host k) := by
  refine ⟨rfl, ?_, ?_, ?_⟩
  · intro hm
    unfold buildEnv
    rw [lastVal_append, lastVal_of_nodup_mem cfg.envVars k v hnd hm]
  · intro hk
    unfold buildEnv
    rw [lastVal_append, lastVal_eq_none _ _ hk, lastVal_append]
    simp [lastVal]
  · intro hk hkd
    unfold buildEnv
    rw [lastVal_append, lastVal_eq_none _ _ hk, lastVal_append]
    simp [lastVal, Ne.symm hkd]

/-- C3 (witness): with the spec's example configuration the child observes
`FOO=bar` and `IS_DEMO_MODE=true`, and inherited `PATH` is preserved. -/
theorem c3_child_env_witness :
    lastVal (buildEnv [("PATH", "/usr/bin"), ("HOME", "/root")] cfgA) "FOO" = some "bar" ∧
    lastVal (buildEnv [("PATH", "/usr/bin"), ("HOME", "/root")] cfgA) "IS_DEMO_MODE" =
      some "true" ∧
    lastVal (buildEnv [("PATH", "/usr/bin"), ("HOME", "/root")] cfgA) "PATH" =
      lastVal [("PATH", "/usr/bin"), ("HOME", "/root")] "PATH" := by
  have h := c3_child_env [("PATH", "/usr/bin"), ("HOME", "/root")] cfgA "FOO" "bar"
    (by decide)
  have h2 := c3_child_env [("PATH", "/usr/bin"), ("HOME", "/root")] cfgA "PATH" "x"
    (by decide)
  exact ⟨h.2.1 (by decide), h.2.2.1 (by decide), h2.2.2.2 (by decide) (by decide)⟩

theorem fallbackOpen_eq_defaultOpener (goos url : String) (ok : List String → Bool)
    (tried : List (List String)) :
    fallbackOpen goos url ok tried =
      match defaultOpener goos url with
      | some c => (tried ++ [c], if ok c then none else some BrowserErr.spawnFailed)
      | none => (tried, some BrowserErr.unsupportedPlatform) := by
  unfold fallbackOpen defaultOpener
  by_cases h1 : goos = "linux" <;> by_cases h2 : goos = "windows" <;>
    by_cases h3 : goos = "darwin" <;> simp [h1, h2, h3]

/-- C9: `openBrowser` is the spec's ordered fallback chain (app-mode
candidates in order until the first successful spawn, then the platform's
default opener, else an unsupported-platform error); an unrecognized platform
yields the unsupported-platform error; and the browser task never affects the
launcher's exit outcome, whatever the spawn oracle does. -/
theorem c9_browser_fallback_chain (goos : String) (cfg : Manifest) (url : String)
    (ok : List String → Bool) (w : World) (f : List String → Bool) :
    openBrowser goos cfg url ok = openBrowserChain goos cfg url ok ∧
    (goos ≠ "windows" → goos ≠ "linux" → goos ≠ "darwin" →
      (openBrowser goos cfg url ok).2 = some BrowserErr.unsupportedPlatform) ∧
    (runMain w).outcome = (runMain { w with spawnOk := f }).outcome := by
  refine ⟨?_, ?_, ?_⟩
  · unfold openBrowser openBrowserChain appModeCandidates
    by_cases hg : 0 < cfg.windowWidth ∧ 0 < cfg.windowHeight
    · rw [if_pos hg, if_pos hg]
      by_cases hw : goos = "windows"
      · subst hw
        by_cases h1 : ok (chromeWinCmd cfg url) <;>
          by_cases h2 : ok (edgeWinCmd cfg url) <;>
          simp [tryCands, h1, h2, fallbackOpen_eq_defaultOpener, defaultOpener]
      · by_cases hl : goos = "linux"
        · subst hl
          by_cases h1 : ok (chromeLinuxCmd cfg url) <;>
            simp [tryCands, h1, hw, fallbackOpen_eq_defaultOpener, defaultOpener]
        · simp [hw, hl, tryCands, fallbackOpen_eq_defaultOpener]
    · rw [if_neg hg, if_neg hg]
      simp [tryCands, fallbackOpen_eq_defaultOpener]
  · intro h1 h2 h3
    by_cases hg : 0 < cfg.windowWidth ∧ 0 < cfg.windowHeight <;>
      simp [openBrowser, fallbackOpen, hg, h1, h2, h3]
  · obtain ⟨mt, en, we, pa, ne, se, he, uf, sa, ke, re, so, go⟩ := w
    unfold runMain
    rcases mt with m | td
    · rfl
    rcases hex : extractBundle td en we with m | ⟨fs, ops⟩
    · simp [hex]
    rcases hrf : readFile fs (inBundle td ["manifest.json"]) with - | data
    · simp [hex, hrf]
    rcases hp : pa data with - | config
    · simp [hex, hrf, hp]
    cases uf
    · rcases hfp : findPort config.phpPort ne with ⟨res, nevs⟩
      rcases res with m | port
      · simp [hex, hrf, hp, hfp]
      rcases se with - | m
      · rcases hft : firstTrigger sa config with - | t
        · simp [hex, hrf, hp, hfp, hft]
        · simp [hex, hrf, hp, hfp, hft]
      · simp [hex, hrf, hp, hfp]
    · simp [hex, hrf, hp]

/-- C9 (witness): an unrecognized platform falls to the unsupported-platform
error, the chain equality holds there, and a spawn oracle that always fails
leaves the concrete run's exit outcome unchanged. -/
theorem c9_browser_fallback_chain_witness :
    openBrowser "plan9" cfgA "http://127.0.0.1:8080/" (fun _ => false) =
      openBrowserChain "plan9" cfgA "http://127.0.0.1:8080/" (fun _ => false) ∧
    (openBrowser "plan9" cfgA "http://127.0.0.1:8080/" (fun _ => false)).2 =
      some BrowserErr.unsupportedPlatform ∧
    (runMain worldA).outcome = (runMain { worldA with spawnOk := fun _ => false }).outcome := by
  have h := c9_browser_fallback_chain "plan9" cfgA "http://127.0.0.1:8080/"
    (fun _ => false) worldA (fun _ => false)
  exact ⟨h.1, h.2.1 (by decide) (by decide) (by decide), h.2.2⟩

/-- C5 (witness): the concrete embedded tree is well-formed, and after
extraction the concrete run's disk holds the extracted file with its content
and executable mode and the extracted directory. -/
theorem c5_extraction_correct_witness :
    treeWF entriesA ∧
    fsGet fsopsA.1 (destOf tdA ⟨["app", "public", "index.php"], false, "hello"⟩) =
      some (.file "hello" 0o755) ∧
    fsGet fsopsA.1 (destOf tdA ⟨["app"], true, ""⟩) = some FNode.dir := by
  have h := c5_extraction_correct tdA entriesA worldA.writeErr fsopsA.1 fsopsA.2
    (by decide) rfl
  exact ⟨by decide,
    h.1 ⟨["app", "public", "index.php"], false, "hello"⟩ (by decide) rfl,
    h.2.1 ⟨["app"], true, ""⟩ (by decide) rfl⟩
